import Mathlib

/-!
Verification development for the benchmark aggregation module of the mAIl
repository (`benchmark/parse_benchmark.py`).

The Python module is shallowly embedded here:
* JSON values are the inductive `Json`; `json_loads` models `json.loads`
  (recursive-descent parser over the character list, fuel-bounded);
* `parse_log_file` models the per-line log reader (results plus the reported
  decode errors, mirroring the `print` in the `except` branch);
* `Record`/`scoreStep`/`summarize_file` model the scoring loop of
  `summarize_results`; Python floats are modelled as exact rationals, and the
  `float("nan")` sentinel for `avg_inference_time` as `Option ℚ = none`;
* `modelName`, `globMatch`, `dictInsert` and `summarize_results` model the
  per-directory aggregation including the dict-overwrite semantics;
* `PyVal`, `fmtF`, `rowFor` and `generate_markdown_table` model the table
  rendering, including the `ValueError` raised by formatting the string
  "N/A" with the `.2f` format spec (modelled as `Except.error`).
-/

/-! ## JSON values and `json.loads` -/

inductive Json where
  | null : Json
  | bool : Bool → Json
  | num : ℚ → Json
  | str : String → Json
  | arr : List Json → Json
  | obj : List (String × Json) → Json

/-- The double-quote character. -/
def quoteChar : Char := Char.ofNat 34

/-- The opening-brace character. -/
def lbraceChar : Char := Char.ofNat 123

/-- The closing-brace character. -/
def rbraceChar : Char := Char.ofNat 125

/-- JSON whitespace, as accepted between tokens by `json.loads`. -/
def isJsonWs (c : Char) : Bool :=
  c.toNat = 32 || c.toNat = 9 || c.toNat = 10 || c.toNat = 13

def skipWs (s : List Char) : List Char := s.dropWhile isJsonWs

def isDigitChar (c : Char) : Bool := 48 ≤ c.toNat && c.toNat ≤ 57

def hexVal (c : Char) : Option Nat :=
  if 48 ≤ c.toNat ∧ c.toNat ≤ 57 then some (c.toNat - 48)
  else if 97 ≤ c.toNat ∧ c.toNat ≤ 102 then some (c.toNat - 87)
  else if 65 ≤ c.toNat ∧ c.toNat ≤ 70 then some (c.toNat - 55)
  else none

/-- Parse the body of a JSON string (the opening quote already consumed),
accumulating decoded characters; mirrors the strict mode of `json.loads`
(unescaped control characters rejected). -/
def parseStr : List Char → List Char → Except String (String × List Char)
  | [], _ => .error "Unterminated string"
  | '\\' :: e :: r, acc =>
    if e = 'u' then
      match r with
      | a :: b :: c :: d :: r2 =>
        match hexVal a, hexVal b, hexVal c, hexVal d with
        | some x, some y, some z, some w =>
            parseStr r2 (acc ++ [Char.ofNat (((x * 16 + y) * 16 + z) * 16 + w)])
        | _, _, _, _ => .error "Invalid hex escape"
      | _ => .error "Invalid hex escape"
    else if e = quoteChar then parseStr r (acc ++ [quoteChar])
    else if e = '\\' then parseStr r (acc ++ ['\\'])
    else if e = '/' then parseStr r (acc ++ ['/'])
    else if e = 'n' then parseStr r (acc ++ [Char.ofNat 10])
    else if e = 't' then parseStr r (acc ++ [Char.ofNat 9])
    else if e = 'r' then parseStr r (acc ++ [Char.ofNat 13])
    else if e = 'b' then parseStr r (acc ++ [Char.ofNat 8])
    else if e = 'f' then parseStr r (acc ++ [Char.ofNat 12])
    else .error "Invalid escape"
  | c :: r, acc =>
    if c = quoteChar then .ok (String.mk acc, r)
    else if c.toNat < 32 then .error "Invalid control character"
    else parseStr r (acc ++ [c])

/-- Longest prefix of decimal digits and the remainder. -/
def munchDigits : List Char → List Char × List Char
  | [] => ([], [])
  | c :: r =>
    if isDigitChar c then
      let p := munchDigits r
      (c :: p.1, p.2)
    else ([], c :: r)

def digitsToNat (ds : List Char) : ℕ :=
  ds.foldl (fun n c => n * 10 + (c.toNat - 48)) 0

/-- Parse a JSON number following the grammar used by `json.loads`:
`-?(0|[1-9][0-9]*)(.[0-9]+)?([eE][+-]?[0-9]+)?`; the numeric value is modelled
exactly as a rational. -/
def parseNum (s : List Char) : Except String (Json × List Char) :=
  let p0 := match s with
    | c :: r => if c = '-' then (true, r) else (false, s)
    | [] => (false, s)
  let neg := p0.1
  let p1 := match p0.2 with
    | c :: r =>
      if c = '0' then (['0'], r)
      else if isDigitChar c then munchDigits (c :: r)
      else (([] : List Char), c :: r)
    | [] => ([], [])
  if p1.1 = [] then .error "Expecting value"
  else
    let p2 := match p1.2 with
      | c :: r =>
        if c = '.' then
          let q := munchDigits r
          if q.1 = [] then (([] : List Char), p1.2) else q
        else ([], p1.2)
      | [] => ([], p1.2)
    let p3 := match p2.2 with
      | c :: r =>
        if c = 'e' ∨ c = 'E' then
          match r with
          | d :: r2 =>
            if d = '+' then
              let q := munchDigits r2
              if q.1 = [] then ((false, ([] : List Char)), p2.2) else ((false, q.1), q.2)
            else if d = '-' then
              let q := munchDigits r2
              if q.1 = [] then ((false, ([] : List Char)), p2.2) else ((true, q.1), q.2)
            else
              let q := munchDigits r
              if q.1 = [] then ((false, ([] : List Char)), p2.2) else ((false, q.1), q.2)
          | [] => ((false, []), p2.2)
        else ((false, []), p2.2)
      | [] => ((false, []), p2.2)
    let mantissa : ℚ :=
      (digitsToNat p1.1 : ℚ) + (digitsToNat p2.1 : ℚ) / (10 : ℚ) ^ p2.1.length
    let expo : ℤ :=
      if p3.1.1 then -(digitsToNat p3.1.2 : ℤ) else (digitsToNat p3.1.2 : ℤ)
    let v : ℚ := (if neg then -mantissa else mantissa) * (10 : ℚ) ^ expo
    .ok (.num v, p3.2)

/-- Insertion into an association list with Python-dict overwrite semantics:
an existing key keeps its position but gets the new value. -/
def objInsert {V : Type} : List (String × V) → String → V → List (String × V)
  | [], k, v => [(k, v)]
  | (k0, v0) :: rest, k, v =>
    if k0 = k then (k0, v) :: rest else (k0, v0) :: objInsert rest k v

mutual

/-- Parse one JSON value at the head of the input. -/
def parseVal : ℕ → List Char → Except String (Json × List Char)
  | 0, _ => .error "Too much nesting"
  | _ + 1, [] => .error "Expecting value"
  | fuel + 1, c :: r =>
    if c = 'n' then
      match c :: r with
      | 'n' :: 'u' :: 'l' :: 'l' :: r2 => .ok (.null, r2)
      | _ => .error "Expecting value"
    else if c = 't' then
      match c :: r with
      | 't' :: 'r' :: 'u' :: 'e' :: r2 => .ok (.bool true, r2)
      | _ => .error "Expecting value"
    else if c = 'f' then
      match c :: r with
      | 'f' :: 'a' :: 'l' :: 's' :: 'e' :: r2 => .ok (.bool false, r2)
      | _ => .error "Expecting value"
    else if c = quoteChar then
      match parseStr r [] with
      | .error e => .error e
      | .ok (s, r2) => .ok (.str s, r2)
    else if c = '[' then
      match skipWs r with
      | ']' :: r2 => .ok (.arr [], r2)
      | r2 => parseItems fuel r2 []
    else if c = lbraceChar then
      match skipWs r with
      | r2 =>
        if r2.head? = some rbraceChar then .ok (.obj [], r2.tail)
        else parseMembers fuel r2 []
    else if c = '-' ∨ isDigitChar c then parseNum (c :: r)
    else .error "Expecting value"

/-- Parse the remaining elements of a JSON array (after `[` and leading
whitespace, first element at the head). -/
def parseItems : ℕ → List Char → List Json → Except String (Json × List Char)
  | 0, _, _ => .error "Too much nesting"
  | fuel + 1, s, acc =>
    match parseVal fuel s with
    | .error e => .error e
    | .ok (v, r) =>
      match skipWs r with
      | ',' :: r2 => parseItems fuel (skipWs r2) (acc ++ [v])
      | ']' :: r2 => .ok (.arr (acc ++ [v]), r2)
      | _ => .error "Expecting comma delimiter"

/-- Parse the remaining members of a JSON object; duplicate keys overwrite
earlier ones, as in a Python dict. -/
def parseMembers : ℕ → List Char → List (String × Json) →
    Except String (Json × List Char)
  | 0, _, _ => .error "Too much nesting"
  | fuel + 1, s, acc =>
    match s with
    | c :: r =>
      if c = quoteChar then
        match parseStr r [] with
        | .error e => .error e
        | .ok (k, r2) =>
          match skipWs r2 with
          | ':' :: r3 =>
            match parseVal fuel (skipWs r3) with
            | .error e => .error e
            | .ok (v, r4) =>
              match skipWs r4 with
              | d :: r5 =>
                if d = ',' then parseMembers fuel (skipWs r5) (objInsert acc k v)
                else if d = rbraceChar then .ok (.obj (objInsert acc k v), r5)
                else .error "Expecting comma delimiter"
              | [] => .error "Expecting comma delimiter"
          | _ => .error "Expecting colon delimiter"
      else .error "Expecting property name"
    | [] => .error "Expecting property name"

end

/-- Model of Python `str.strip()` restricted to the whitespace characters that
occur in log lines. -/
def pyStrip (s : String) : String :=
  String.mk (((s.data.dropWhile isJsonWs).reverse.dropWhile isJsonWs).reverse)

/-- Model of `json.loads`: parse a single JSON document with optional
surrounding whitespace; trailing input is the "Extra data" error, and the
empty document is the "Expecting value" error. -/
def json_loads (s : String) : Except String Json :=
  match parseVal (3 * s.data.length + 8) (skipWs s.data) with
  | .error e => .error e
  | .ok (v, r) => if skipWs r = [] then .ok v else .error "Extra data"

/-! ## `parse_log_file`

The Python loop collects `json_line[0]` for every stripped line that decodes
to a one-element JSON list, and prints an error naming the file and the
decode-error message for every line on which `json.loads` raises; a decoded
line of any other shape is passed over silently.  The model returns the pair
(collected records, reported errors). -/

/-- One iteration of the line loop of `parse_log_file`. -/
def parseLogStep (fname : String) (acc : List Json × List (String × String))
    (line : String) : List Json × List (String × String) :=
  match json_loads (pyStrip line) with
  | .ok j =>
    match j with
    | .arr [x] => (acc.1 ++ [x], acc.2)
    | _ => acc
  | .error e => (acc.1, acc.2 ++ [(fname, e)])

def parse_log_file (fname : String) (lines : List String) :
    List Json × List (String × String) :=
  lines.foldl (parseLogStep fname) ([], [])

/-- The record a line contributes, if any: the single element of a decoded
one-element JSON array. -/
def lineRecord (line : String) : Option Json :=
  match json_loads (pyStrip line) with
  | .ok (.arr [x]) => some x
  | _ => none

/-- The report a line provokes, if any: the file name paired with the decode
error message, for lines on which `json.loads` raises. -/
def lineError (fname line : String) : Option (String × String) :=
  match json_loads (pyStrip line) with
  | .error e => some (fname, e)
  | .ok _ => none

/-- Whether a line decodes to a one-element JSON array. -/
def isOneElemArr : Except String Json → Bool
  | .ok (.arr [_]) => true
  | _ => false

/-! ## Records and the scoring loop of `summarize_results` -/

def lowerChar (c : Char) : Char :=
  if 65 ≤ c.toNat ∧ c.toNat ≤ 90 then Char.ofNat (c.toNat + 32) else c

/-- Model of Python `str.lower()`, restricted to ASCII letters (model names
and verdict labels in the logs are ASCII). -/
def pyLower (s : String) : String := String.mk (s.data.map lowerChar)

/-- The fields of a decoded result record that the scoring loop reads.
`classification = none` models an absent key, `some none` models JSON null,
`some (some c)` a string verdict; `inference_time = none` models an absent
key. -/
structure Record where
  hasError : Bool
  classification : Option (Option String)
  inference_time : Option ℚ
  deriving DecidableEq

def jsonLookup (k : String) : Json → Option Json
  | .obj kvs => (kvs.find? (fun kv => kv.1 = k)).map (fun kv => kv.2)
  | _ => none

/-- View of a decoded JSON record as a `Record`.  Records whose
`classification` value is neither a string nor null, or whose
`inference_time` is not a number, would make the original crash
(`.lower()` / arithmetic on a non-conforming type); such records do not
occur in well-formed logs and are normalised here. -/
def toRecord (j : Json) : Record :=
  { hasError := (jsonLookup "error" j).isSome
  , classification :=
      match jsonLookup "classification" j with
      | some (.str c) => some (some c)
      | some _ => some none
      | none => none
  , inference_time :=
      match jsonLookup "inference_time" j with
      | some (.num q) => some q
      | _ => none }

/-- One iteration of the `for result in results` loop: the state is the pair
(`correct`, `inference_times`).  Faithful to the source order: the `error`
key is checked first; then both `classification` and `inference_time` must
be present; a null classification is skipped; otherwise the record's time is
collected and `correct` is incremented when the category rule matches. -/
def scoreStep (category : String) (st : ℕ × List ℚ) (r : Record) : ℕ × List ℚ :=
  if r.hasError then st
  else
    match r.classification, r.inference_time with
    | some cls, some t =>
      match cls with
      | none => st
      | some c =>
        if (category = "safe" ∧ pyLower c = "safe")
            ∨ (category = "malicious" ∧ pyLower c ≠ "safe") then
          (st.1 + 1, st.2 ++ [t])
        else
          (st.1, st.2 ++ [t])
    | _, _ => st

def scoreFold (category : String) (rs : List Record) : ℕ × List ℚ :=
  rs.foldl (scoreStep category) (0, [])

/-- The `correct` counter after the loop. -/
def correctCount (category : String) (rs : List Record) : ℕ :=
  (scoreFold category rs).1

/-- The `inference_times` list after the loop. -/
def inferenceTimes (category : String) (rs : List Record) : List ℚ :=
  (scoreFold category rs).2

/-- `statistics.mean`, exact on rationals (never applied to an empty list by
the source). -/
def pyMean (l : List ℚ) : ℚ := l.sum / l.length

/-- The per-model, per-category summary dict. `avg_inference_time = none`
models the `float("nan")` sentinel stored when no times were collected. -/
structure ModelSummary where
  accuracy : ℚ
  avg_inference_time : Option ℚ
  total : ℕ
  deriving DecidableEq

def summarize_file (category : String) (rs : List Record) : ModelSummary :=
  { accuracy :=
      if 0 < rs.length then (correctCount category rs : ℚ) / (rs.length : ℚ) * 100
      else 0
  , avg_inference_time :=
      if inferenceTimes category rs ≠ [] then some (pyMean (inferenceTimes category rs))
      else none
  , total := rs.length }

/-! ## Model-name derivation and the per-directory aggregation -/

/-- Worker for `pyReplace`; the fuel argument only bounds the recursion
depth (every step consumes at least one character, so fuel equal to the
input length is always enough). -/
def pyReplaceAux (old new : List Char) : ℕ → List Char → List Char
  | 0, s => s
  | _ + 1, [] => []
  | fuel + 1, c :: rest =>
    if old ≠ [] ∧ old.isPrefixOf (c :: rest) then
      new ++ pyReplaceAux old new fuel ((c :: rest).drop old.length)
    else
      c :: pyReplaceAux old new fuel rest

/-- Model of Python `str.replace(old, new)` on character lists: every
non-overlapping occurrence of `old` is replaced, scanning left to right. -/
def pyReplace (old new s : List Char) : List Char :=
  pyReplaceAux old new s.length s

def prefixPat (category : String) : List Char := ("test_" ++ category ++ "_").data

def dotLog : List Char := ".log".data

/-- The code's model-name derivation:
`.replace(f"test_{category}_", "").replace(".log", "").replace("_", ":")`. -/
def modelName (category fname : String) : String :=
  String.mk (pyReplace ['_'] [':']
    (pyReplace dotLog [] (pyReplace (prefixPat category) [] fname.data)))

def colonizeChar (c : Char) : Char := if c = '_' then ':' else c

/-- The model-name derivation as the specification words it: remove the
`test_<category>_` prefix and the `.log` suffix, then replace every
underscore with a colon.  Stated only for comparison with `modelName`,
the code's replace-all derivation. -/
def specModelName (category fname : String) : String :=
  let l1 := fname.data
  let l2 := if (prefixPat category).isPrefixOf l1 then l1.drop (prefixPat category).length else l1
  let l3 := if dotLog.isSuffixOf l2 then l2.take (l2.length - dotLog.length) else l2
  String.mk (l3.map colonizeChar)

/-- Whether a file name matches the glob pattern `test_<category>_*.log`,
i.e. is `test_<category>_` ++ anything ++ `.log`. -/
def globMatch (category fname : String) : Bool :=
  (prefixPat category).isPrefixOf fname.data && dotLog.isSuffixOf fname.data
    && decide ((prefixPat category).length + dotLog.length ≤ fname.data.length)

/-- Summary computed for one log file: its lines are parsed and the decoded
records scored. -/
def fileSummary (category fname : String) (lines : List String) : ModelSummary :=
  summarize_file category ((parse_log_file fname lines).1.map toRecord)

/-- The `summary` dict built by `summarize_results`: the directory listing is
modelled as a list of (file name, lines) pairs in `glob` iteration order;
each matching file's summary is stored under its derived model name with
dict-overwrite semantics. -/
def summarize_results (category : String) (files : List (String × List String)) :
    List (String × ModelSummary) :=
  files.foldl
    (fun acc f =>
      if globMatch category f.1 then
        objInsert acc (modelName category f.1) (fileSummary category f.1 f.2)
      else acc)
    []

def dictLookup {V : Type} (k : String) : List (String × V) → Option V
  | [] => none
  | (k0, v) :: rest => if k0 = k then some v else dictLookup k rest

/-! ## `generate_markdown_table` -/

/-- A Python value appearing in a table cell before formatting: a float
(`flt none` models `float("nan")`) or a string (only ever `"N/A"` here,
the `.get` default). -/
inductive PyVal where
  | flt : Option ℚ → PyVal
  | str : String → PyVal
  deriving DecidableEq

def padRight (w : ℕ) (s : String) : String :=
  s ++ String.mk (List.replicate (w - s.data.length) ' ')

/-- The `%.2f` digits of a nonnegative float modelled as a rational (the
accuracies and latencies formatted by the source are nonnegative). -/
def dec2 (q : ℚ) : String :=
  let n : ℤ := ⌊q * 100 + 1 / 2⌋
  toString (n / 100) ++ "." ++ (if n % 100 < 10 then "0" else "") ++ toString (n % 100)

/-- The `f"{v:<w.2f}"` format item: floats render left-padded (`nan` for the
not-a-number sentinel), while formatting a string with the `f` format code
raises `ValueError` — modelled as `Except.error`. -/
def fmtF (w : ℕ) (v : PyVal) : Except String String :=
  match v with
  | .flt (some q) => .ok (padRight w (dec2 q))
  | .flt none => .ok (padRight w "nan")
  | .str _ => .error "Unknown format code f for object of type str"

/-- `summary.get(model, {}).get("accuracy", "N/A")`. -/
def accVal (o : Option ModelSummary) : PyVal :=
  match o with
  | some s => .flt (some s.accuracy)
  | none => .str "N/A"

/-- `summary.get(model, {}).get("avg_inference_time", "N/A")`. -/
def timeVal (o : Option ModelSummary) : PyVal :=
  match o with
  | some s => .flt s.avg_inference_time
  | none => .str "N/A"

/-- The comprehension `[t for t in cells if isinstance(t, (int, float))]`:
the float values, with `none` for `nan`. -/
def floatsOf (l : List PyVal) : List (Option ℚ) :=
  l.filterMap (fun v => match v with | .flt x => some x | .str _ => none)

/-- `statistics.mean` over floats that may be `nan`: any `nan` input makes
the mean `nan`.  (The source never applies it to an empty list: the guard in
`avgTimeEntry` ensures two floats.) -/
def pyFloatMean (l : List (Option ℚ)) : Option ℚ :=
  if l.any (fun x => x.isNone) then none
  else some ((l.filterMap id).sum / l.length)

/-- The `avg_time` expression of `generate_markdown_table`: the mean of the
two cells when neither is the string `"N/A"`, else `"N/A"`. -/
def avgTimeEntry (so mo : Option ModelSummary) : PyVal :=
  let ts := timeVal so
  let tm := timeVal mo
  if ts ≠ .str "N/A" ∧ tm ≠ .str "N/A" then .flt (pyFloatMean (floatsOf [ts, tm]))
  else .str "N/A"

/-- One data row of the table; the f-string formats the four fields left to
right, so the first string cell formatted with `.2f` aborts the row. -/
def rowFor (safe mal : List (String × ModelSummary)) (m : String) :
    Except String String := do
  let c1 ← fmtF 17 (accVal (dictLookup m safe))
  let c2 ← fmtF 23 (accVal (dictLookup m mal))
  let c3 ← fmtF 23 (avgTimeEntry (dictLookup m safe) (dictLookup m mal))
  .ok ("| " ++ padRight 14 m ++ " | " ++ c1 ++ " | " ++ c2 ++ " | " ++ c3 ++ " |\n")

/-- Code-point lexicographic order on character lists (Python string `<`). -/
def lexLt : List Char → List Char → Bool
  | [], [] => false
  | [], _ :: _ => true
  | _ :: _, [] => false
  | a :: as, b :: bs => if a = b then lexLt as bs else decide (a < b)

def insertSorted (x : String) : List String → List String
  | [] => [x]
  | y :: ys => if x = y ∨ lexLt x.data y.data then x :: y :: ys else y :: insertSorted x ys

/-- `sorted(...)` on strings (code-point order, as in Python). -/
def sortStrings (l : List String) : List String := l.foldr insertSorted []

/-- `sorted(set(safe) | set(mal))`: the sorted union of the two key sets. -/
def allModels (safe mal : List (String × ModelSummary)) : List String :=
  sortStrings ((safe.map Prod.fst ++ mal.map Prod.fst).dedup)

def tableHeader : String :=
  "| Model          | Safe Accuracy (%) | Malicious Accuracy (%) | Avg Inference Time (s) |\n|----------------|-------------------|-------------------------|-------------------------|\n"

/-- The table builder; an uncaught `ValueError` from a row propagates as
`Except.error` and aborts the table (and with it the run). -/
def generate_markdown_table (safe mal : List (String × ModelSummary)) :
    Except String String :=
  (allModels safe mal).foldlM
    (fun acc m => (rowFor safe mal m).map (fun row => acc ++ row))
    tableHeader

/-! ## Derived predicates used to state the claims -/

/-- The `is_correct` condition of the scoring loop, as a function of the
category and the classification string. -/
def ruleB (category c : String) : Bool :=
  decide ((category = "safe" ∧ pyLower c = "safe")
    ∨ (category = "malicious" ∧ pyLower c ≠ "safe"))

/-- Whether the scoring loop increments `correct` on a record: no `error`
key, a non-null `classification`, an `inference_time` key, and the category
rule holds. -/
def correctB (category : String) (r : Record) : Bool :=
  !r.hasError
    && (match r.classification with | some (some c) => ruleB category c | _ => false)
    && r.inference_time.isSome

/-- The contribution of a record to the `inference_times` list. -/
def timesOf (r : Record) : List ℚ :=
  if r.hasError then []
  else
    match r.classification, r.inference_time with
    | some (some _), some t => [t]
    | _, _ => []

/-- A record the scoring loop actually scores: no `error` key, a
string (non-null) `classification`, and an `inference_time` key. -/
def scorableB (r : Record) : Bool :=
  !r.hasError
    && (match r.classification with | some (some _) => true | _ => false)
    && r.inference_time.isSome

/-- Correctness under the `"malicious"` category: scorable and the
lower-cased classification differs from `"safe"`. -/
def malCorrectB (r : Record) : Bool :=
  scorableB r
    && (match r.classification with
        | some (some c) => decide (pyLower c ≠ "safe")
        | _ => false)

/-- `noOcc old s` holds when `old` occurs nowhere in `s` (checked at every
suffix of `s`). -/
def noOcc (old : List Char) : List Char → Bool
  | [] => !old.isPrefixOf []
  | c :: rest => !old.isPrefixOf (c :: rest) && noOcc old rest

/-- `noEarly old s` holds when the only occurrence of `old` in `s ++ old` is
the final one (no occurrence starts inside `s`). -/
def noEarly (old : List Char) : List Char → Bool
  | [] => true
  | c :: rest => !old.isPrefixOf (c :: (rest ++ old)) && noEarly old rest

/-- The record of the last file in the processing order that satisfies a
predicate (how a dict keyed by a non-injective function remembers files). -/
def lastMatch {α : Type} (p : α → Bool) (l : List α) : Option α :=
  l.foldl (fun acc x => if p x then some x else acc) none

/-! ## Supporting lemmas: the log reader -/

lemma parseLogStep_eq (fname line : String) (acc : List Json × List (String × String)) :
    parseLogStep fname acc line
      = (acc.1 ++ (lineRecord line).toList, acc.2 ++ (lineError fname line).toList) := by
  unfold parseLogStep lineRecord lineError
  cases h : json_loads (pyStrip line) with
  | error e => simp
  | ok j =>
    cases j with
    | arr xs =>
      cases xs with
      | nil => simp
      | cons x t =>
        cases t with
        | nil => simp
        | cons y t2 => simp
    | null => simp
    | bool b => simp
    | num q => simp
    | str s => simp
    | obj kvs => simp

lemma parse_fold (fname : String) (lines : List String) :
    ∀ acc : List Json × List (String × String),
      lines.foldl (parseLogStep fname) acc
        = (acc.1 ++ lines.filterMap lineRecord,
           acc.2 ++ lines.filterMap (lineError fname)) := by
  induction lines with
  | nil => intro acc; simp
  | cons l ls ih =>
    intro acc
    rw [List.foldl_cons, parseLogStep_eq, ih]
    cases hr : lineRecord l <;> cases he : lineError fname l <;>
      simp [List.filterMap_cons, hr, he]

lemma parse_log_file_eq (fname : String) (lines : List String) :
    parse_log_file fname lines
      = (lines.filterMap lineRecord, lines.filterMap (lineError fname)) := by
  unfold parse_log_file
  rw [parse_fold]
  simp

lemma length_filterMap_countP {α β : Type} (f : α → Option β) (l : List α) :
    (l.filterMap f).length = l.countP (fun a => (f a).isSome) := by
  induction l with
  | nil => simp
  | cons a l ih =>
    cases h : f a <;> simp [List.filterMap_cons, h, List.countP_cons, ih]

lemma lineRecord_isSome (line : String) :
    (lineRecord line).isSome = isOneElemArr (json_loads (pyStrip line)) := by
  unfold lineRecord isOneElemArr
  cases h : json_loads (pyStrip line) with
  | error e => simp
  | ok j =>
    cases j with
    | arr xs =>
      cases xs with
      | nil => simp
      | cons x t =>
        cases t with
        | nil => simp
        | cons y t2 => simp
    | null => simp
    | bool b => simp
    | num q => simp
    | str s => simp
    | obj kvs => simp

/-! ## Supporting lemmas: the scoring loop -/

lemma scoreStep_eq (category : String) (st : ℕ × List ℚ) (r : Record) :
    scoreStep category st r
      = (st.1 + (if correctB category r then 1 else 0), st.2 ++ timesOf r) := by
  rcases st with ⟨n, ts⟩
  rcases r with ⟨he, cls, it⟩
  cases he with
  | true => simp [scoreStep, correctB, timesOf]
  | false =>
    rcases cls with _ | cls2
    · rcases it with _ | t <;> simp [scoreStep, correctB, timesOf]
    · rcases cls2 with _ | c
      · rcases it with _ | t <;> simp [scoreStep, correctB, timesOf]
      · rcases it with _ | t
        · simp [scoreStep, correctB, timesOf]
        · by_cases hok : (category = "safe" ∧ pyLower c = "safe")
              ∨ (category = "malicious" ∧ pyLower c ≠ "safe")
          · simp [scoreStep, correctB, timesOf, ruleB, hok]
          · simp [scoreStep, correctB, timesOf, ruleB, hok]

lemma scoreFold_from (category : String) (rs : List Record) :
    ∀ (n : ℕ) (ts : List ℚ),
      rs.foldl (scoreStep category) (n, ts)
        = (n + rs.countP (correctB category), ts ++ rs.flatMap timesOf) := by
  induction rs with
  | nil => intro n ts; simp
  | cons r rs ih =>
    intro n ts
    rw [List.foldl_cons, scoreStep_eq, ih]
    simp only [List.countP_cons, List.flatMap_cons, Prod.mk.injEq, List.append_assoc]
    constructor
    · omega
    · trivial

lemma correctCount_eq (category : String) (rs : List Record) :
    correctCount category rs = rs.countP (correctB category) := by
  unfold correctCount scoreFold
  rw [scoreFold_from]
  simp

lemma inferenceTimes_eq (category : String) (rs : List Record) :
    inferenceTimes category rs = rs.flatMap timesOf := by
  unfold inferenceTimes scoreFold
  rw [scoreFold_from]
  simp

/-! ## Supporting lemmas: `pyReplace` -/

lemma pyReplaceAux_nil (old new : List Char) (fuel : ℕ) :
    pyReplaceAux old new fuel [] = [] := by
  cases fuel <;> rfl

lemma pyReplaceAux_irrel (old new : List Char) :
    ∀ (fuel fuel2 : ℕ) (s : List Char), s.length ≤ fuel → s.length ≤ fuel2 →
      pyReplaceAux old new fuel s = pyReplaceAux old new fuel2 s := by
  intro fuel
  induction fuel with
  | zero =>
    intro fuel2 s hs _
    have hz : s = [] := List.eq_nil_of_length_eq_zero (Nat.le_zero.mp hs)
    subst hz
    rw [pyReplaceAux_nil, pyReplaceAux_nil]
  | succ f ih =>
    intro fuel2 s hs hs2
    cases s with
    | nil => rw [pyReplaceAux_nil, pyReplaceAux_nil]
    | cons c rest =>
      cases fuel2 with
      | zero => simp at hs2
      | succ f2 =>
        simp only [List.length_cons, Nat.succ_le_succ_iff] at hs hs2
        show pyReplaceAux old new (f + 1) (c :: rest)
          = pyReplaceAux old new (f2 + 1) (c :: rest)
        unfold pyReplaceAux
        by_cases h : old ≠ [] ∧ old.isPrefixOf (c :: rest)
        · rw [if_pos h, if_pos h]
          congr 1
          have h1 : 0 < old.length := List.length_pos.mpr h.1
          apply ih
          · simp only [List.length_drop, List.length_cons]
            omega
          · simp only [List.length_drop, List.length_cons]
            omega
        · rw [if_neg h, if_neg h]
          congr 1
          exact ih f2 rest hs hs2

lemma pyReplace_cons_pos {old : List Char} (new : List Char) {c : Char}
    {rest : List Char} (h : old ≠ [] ∧ old.isPrefixOf (c :: rest)) :
    pyReplace old new (c :: rest)
      = new ++ pyReplace old new ((c :: rest).drop old.length) := by
  have e1 : pyReplace old new (c :: rest)
      = pyReplaceAux old new (rest.length + 1) (c :: rest) := rfl
  rw [e1]
  conv_lhs => rw [pyReplaceAux]
  rw [if_pos h]
  congr 1
  have e2 : pyReplace old new ((c :: rest).drop old.length)
      = pyReplaceAux old new ((c :: rest).drop old.length).length
          ((c :: rest).drop old.length) := rfl
  rw [e2]
  have h1 : 0 < old.length := List.length_pos.mpr h.1
  apply pyReplaceAux_irrel
  · simp only [List.length_drop, List.length_cons]
    omega
  · exact Nat.le_refl _

lemma pyReplace_cons_neg {old : List Char} (new : List Char) {c : Char}
    {rest : List Char} (h : ¬(old ≠ [] ∧ old.isPrefixOf (c :: rest))) :
    pyReplace old new (c :: rest) = c :: pyReplace old new rest := by
  have e1 : pyReplace old new (c :: rest)
      = pyReplaceAux old new (rest.length + 1) (c :: rest) := rfl
  rw [e1]
  conv_lhs => rw [pyReplaceAux]
  rw [if_neg h]
  rfl

lemma pyReplace_atFront (old new t : List Char) (h : old ≠ []) :
    pyReplace old new (old ++ t) = new ++ pyReplace old new t := by
  cases old with
  | nil => exact absurd rfl h
  | cons c r =>
    have hpre : (c :: r).isPrefixOf (c :: (r ++ t)) := by
      rw [List.isPrefixOf_iff_prefix]
      exact List.prefix_append _ _
    show pyReplace (c :: r) new (c :: (r ++ t)) = _
    rw [pyReplace_cons_pos new ⟨h, hpre⟩]
    congr 1
    simp only [List.length_cons, List.drop_succ_cons, List.drop_left]

lemma pyReplace_noOcc (old new : List Char) :
    ∀ s, noOcc old s = true → pyReplace old new s = s := by
  intro s
  induction s with
  | nil => intro _; rfl
  | cons c rest ih =>
    intro h
    unfold noOcc at h
    rw [Bool.and_eq_true, Bool.not_eq_true'] at h
    rw [pyReplace_cons_neg new (by simp [h.1]), ih h.2]

lemma pyReplace_final (old : List Char) (hne : old ≠ []) :
    ∀ s, noEarly old s = true → pyReplace old [] (s ++ old) = s := by
  intro s
  induction s with
  | nil =>
    intro _
    have h0 := pyReplace_atFront old [] [] hne
    simpa using h0
  | cons c rest ih =>
    intro h
    unfold noEarly at h
    rw [Bool.and_eq_true, Bool.not_eq_true'] at h
    show pyReplace old [] (c :: (rest ++ old)) = c :: rest
    rw [pyReplace_cons_neg [] (by simp [h.1]), ih h.2]

lemma pyReplace_single (a b : Char) :
    ∀ s, pyReplace [a] [b] s = s.map (fun c => if c = a then b else c) := by
  intro s
  induction s with
  | nil => rfl
  | cons c rest ih =>
    by_cases hca : c = a
    · subst hca
      rw [pyReplace_cons_pos [b] ⟨by simp, by simp [List.isPrefixOf]⟩]
      simpa using ih
    · have hnp : ¬(([a] : List Char) ≠ [] ∧ ([a] : List Char).isPrefixOf (c :: rest)) := by
        intro hcon
        have h2 := hcon.2
        simp [List.isPrefixOf] at h2
        exact hca h2.symm
      rw [pyReplace_cons_neg [b] hnp, ih]
      simp [hca]

lemma prefixPat_ne_nil (category : String) : prefixPat category ≠ [] := by
  rcases category with ⟨l⟩
  show ("test_" ++ String.mk l ++ "_").data ≠ []
  show ('t' :: 'e' :: 's' :: 't' :: '_' :: l) ++ ['_'] ≠ []
  simp

/-! ## Supporting lemmas: the summary dict -/

lemma dictLookup_objInsert_self {V : Type} (l : List (String × V)) (k : String) (v : V) :
    dictLookup k (objInsert l k v) = some v := by
  induction l with
  | nil => simp [objInsert, dictLookup]
  | cons kv rest ih =>
    rcases kv with ⟨k0, v0⟩
    by_cases h : k0 = k
    · simp [objInsert, h, dictLookup]
    · simp [objInsert, h, dictLookup, ih]

lemma dictLookup_objInsert_other {V : Type} (l : List (String × V)) (k k2 : String)
    (v : V) (h : k ≠ k2) : dictLookup k2 (objInsert l k v) = dictLookup k2 l := by
  induction l with
  | nil => simp [objInsert, dictLookup, h]
  | cons kv rest ih =>
    rcases kv with ⟨k0, v0⟩
    by_cases h0 : k0 = k
    · subst h0
      simp [objInsert, dictLookup, h]
    · simp [objInsert, h0, dictLookup, ih]

lemma keys_objInsert {V : Type} (l : List (String × V)) (k : String) (v : V) :
    (objInsert l k v).map Prod.fst
      = if k ∈ l.map Prod.fst then l.map Prod.fst else l.map Prod.fst ++ [k] := by
  induction l with
  | nil => simp [objInsert]
  | cons kv rest ih =>
    rcases kv with ⟨k0, v0⟩
    by_cases h : k0 = k
    · subst h
      simp [objInsert]
    · by_cases h2 : k ∈ rest.map Prod.fst
      · simp [objInsert, h, ih, h2, Ne.symm h]
      · simp [objInsert, h, ih, h2, Ne.symm h]

lemma nodup_keys_objInsert {V : Type} (l : List (String × V)) (k : String) (v : V)
    (h : (l.map Prod.fst).Nodup) : ((objInsert l k v).map Prod.fst).Nodup := by
  rw [keys_objInsert]
  by_cases hk : k ∈ l.map Prod.fst
  · simpa [hk] using h
  · simp only [hk, if_false]
    rw [List.nodup_append]
    refine ⟨h, List.nodup_singleton _, ?_⟩
    intro a ha hb
    simp only [List.mem_singleton] at hb
    subst hb
    exact hk ha

lemma summarize_results_append (category : String)
    (files : List (String × List String)) (f : String × List String) :
    summarize_results category (files ++ [f])
      = if globMatch category f.1 then
          objInsert (summarize_results category files) (modelName category f.1)
            (fileSummary category f.1 f.2)
        else summarize_results category files := by
  unfold summarize_results
  rw [List.foldl_append]
  rfl

lemma lastMatch_append_singleton {α : Type} (p : α → Bool) (l : List α) (x : α) :
    lastMatch p (l ++ [x]) = if p x then some x else lastMatch p l := by
  unfold lastMatch
  rw [List.foldl_append]
  rfl

lemma lastMatch_eq_getLast {α : Type} (p : α → Bool) (l : List α) :
    lastMatch p l = (l.filter p).getLast? := by
  induction l using List.reverseRecOn with
  | nil => rfl
  | append_singleton fs x ih =>
    rw [lastMatch_append_singleton, List.filter_append]
    by_cases hp : p x
    · simp [hp]
    · simp [hp, ih]

lemma lookup_summarize (category m : String) (files : List (String × List String)) :
    dictLookup m (summarize_results category files)
      = (lastMatch (fun f => globMatch category f.1 && (modelName category f.1 == m))
          files).map (fun f => fileSummary category f.1 f.2) := by
  induction files using List.reverseRecOn with
  | nil => rfl
  | append_singleton fs f ih =>
    rw [summarize_results_append, lastMatch_append_singleton]
    by_cases hg : globMatch category f.1
    · by_cases hm : modelName category f.1 = m
      · rw [if_pos hg, hm, dictLookup_objInsert_self]
        simp [hg, hm]
      · rw [if_pos hg, dictLookup_objInsert_other _ _ _ _ hm, ih]
        simp [hg, hm]
    · rw [if_neg hg, ih]
      simp [hg]

lemma nodup_keys_summarize (category : String) (files : List (String × List String)) :
    ((summarize_results category files).map Prod.fst).Nodup := by
  induction files using List.reverseRecOn with
  | nil => simp [summarize_results]
  | append_singleton fs f ih =>
    rw [summarize_results_append]
    by_cases hg : globMatch category f.1
    · rw [if_pos hg]
      exact nodup_keys_objInsert _ _ _ ih
    · rw [if_neg hg]
      exact ih

/-! ## Claim theorems -/

/-- Claim C7: for every input file, the log reader's output is exactly the single
elements of the lines that decode to one-element JSON arrays (in order), so
its length equals the count of such lines, regardless of how many malformed
or differently-shaped lines are interleaved. -/
theorem C7_log_reader_output (fname : String) (lines : List String) :
    (parse_log_file fname lines).1 = lines.filterMap lineRecord
    ∧ (parse_log_file fname lines).1.length
        = lines.countP (fun l => isOneElemArr (json_loads (pyStrip l))) := by
  constructor
  · rw [parse_log_file_eq]
  · rw [parse_log_file_eq]
    simp only [length_filterMap_countP]
    congr 1
    funext l
    rw [lineRecord_isSome]

/-- Claim C4, amended: every line on which `json.loads` raises is reported — as
the file name paired with the decode error message, not the line's content —
and skipped; a line that decodes to valid JSON but is not a one-element
array is skipped with no report; a blank line does not decode to valid JSON,
so it is reported rather than silently skipped. -/
theorem C4_error_reporting (fname : String) (lines : List String) :
    (parse_log_file fname lines).2 = lines.filterMap (lineError fname)
    ∧ (∀ line j, json_loads (pyStrip line) = .ok j → lineError fname line = none)
    ∧ (∀ line e, json_loads (pyStrip line) = .error e
        → lineError fname line = some (fname, e))
    ∧ json_loads (pyStrip "") = .error "Expecting value" := by
  refine ⟨?_, ?_, ?_, rfl⟩
  · rw [parse_log_file_eq]
  · intro line j h
    unfold lineError
    rw [h]
  · intro line e h
    unfold lineError
    rw [h]

theorem C4_error_reporting_witness :
    lineError "file.log" "[1, 2]" = none
    ∧ lineError "file.log" "nonsense" = some ("file.log", "Expecting value") := by
  constructor
  · exact (C4_error_reporting "file.log" []).2.1 "[1, 2]" _ rfl
  · exact (C4_error_reporting "file.log" []).2.2.1 "nonsense" "Expecting value" rfl

/-- Counterexample to claim C4 as stated: a blank line is a JSON decode failure (`json.loads`
raises "Expecting value" on the empty document), so it is reported — it is
not among the silently skipped shape mismatches as the claim states. -/
theorem C4_counterexample_blank_line :
    (parse_log_file "file.log" [""]).1 = []
    ∧ (parse_log_file "file.log" [""]).2 = [("file.log", "Expecting value")]
    ∧ (parse_log_file "file.log" [""]).2 ≠ [] := by
  exact ⟨rfl, rfl, by decide⟩

/-- Claim C5: on the three-record safe scenario, the scorer yields total 3,
numerator 1, accuracy 100/3 (rendered "33.33" by the two-decimal format) and
average inference time 3/2, the error record being excluded from the latency
mean but counted in the total. -/
theorem C5_safe_scenario :
    (summarize_file "safe"
        [⟨false, some (some "Safe"), some 1⟩,
         ⟨false, some (some "Phishing"), some 2⟩,
         ⟨true, none, none⟩]).total = 3
    ∧ correctCount "safe"
        [⟨false, some (some "Safe"), some 1⟩,
         ⟨false, some (some "Phishing"), some 2⟩,
         ⟨true, none, none⟩] = 1
    ∧ (summarize_file "safe"
        [⟨false, some (some "Safe"), some 1⟩,
         ⟨false, some (some "Phishing"), some 2⟩,
         ⟨true, none, none⟩]).accuracy = 100 / 3
    ∧ dec2 ((summarize_file "safe"
        [⟨false, some (some "Safe"), some 1⟩,
         ⟨false, some (some "Phishing"), some 2⟩,
         ⟨true, none, none⟩]).accuracy) = "33.33"
    ∧ (summarize_file "safe"
        [⟨false, some (some "Safe"), some 1⟩,
         ⟨false, some (some "Phishing"), some 2⟩,
         ⟨true, none, none⟩]).avg_inference_time = some (3 / 2) := by
  have h1 : correctCount "safe"
      [⟨false, some (some "Safe"), some 1⟩,
       ⟨false, some (some "Phishing"), some 2⟩,
       ⟨true, none, none⟩] = 1 := by decide
  have ht : inferenceTimes "safe"
      [⟨false, some (some "Safe"), some 1⟩,
       ⟨false, some (some "Phishing"), some 2⟩,
       ⟨true, none, none⟩] = [1, 2] := by decide
  have hacc : (summarize_file "safe"
      [⟨false, some (some "Safe"), some 1⟩,
       ⟨false, some (some "Phishing"), some 2⟩,
       ⟨true, none, none⟩]).accuracy = 100 / 3 := by
    simp [summarize_file, h1]
    norm_num
  refine ⟨rfl, h1, hacc, ?_, ?_⟩
  · rw [hacc]
    norm_num [dec2]
    rfl
  · simp [summarize_file, ht, pyMean]
    norm_num

/-- Claim C6, amended: under the "malicious" category a record counts toward
the correctness numerator exactly when it has no error, a string (non-null)
classification, an `inference_time` key — the code requires this key too,
narrowing the spec's notion of scorable — and its lower-cased classification
differs from "safe"; the total counts all records read; accuracy is
numerator divided by total times 100 (with the convention 0/0 = 0, an empty
record list yields accuracy 0). -/
theorem C6_malicious_scoring (rs : List Record) :
    correctCount "malicious" rs = rs.countP malCorrectB
    ∧ (summarize_file "malicious" rs).total = rs.length
    ∧ (summarize_file "malicious" rs).accuracy
        = (correctCount "malicious" rs : ℚ) / (rs.length : ℚ) * 100
    ∧ (summarize_file "malicious" ([] : List Record)).accuracy = 0 := by
  refine ⟨?_, rfl, ?_, rfl⟩
  · rw [correctCount_eq]
    congr 1
    funext r
    rcases r with ⟨he, cls, it⟩
    rcases cls with _ | cls2
    · simp [correctB, malCorrectB, scorableB]
    · rcases cls2 with _ | c
      · simp [correctB, malCorrectB, scorableB]
      · by_cases h : pyLower c = "safe" <;>
          simp [correctB, malCorrectB, scorableB, ruleB, h, Bool.and_comm]
  · show (if 0 < rs.length then (correctCount "malicious" rs : ℚ) / (rs.length : ℚ) * 100
        else 0) = _
    by_cases h : 0 < rs.length
    · rw [if_pos h]
    · rw [if_neg h]
      have h0 : rs.length = 0 := by omega
      rw [h0]
      simp

/-- Claim C8: appending records that carry an error field or a null/absent
classification never increases accuracy — such records never increment the
numerator while the denominator (total) grows. -/
theorem C8_accuracy_monotone (category : String) (rs extra : List Record)
    (h : ∀ r ∈ extra,
      r.hasError = true ∨ r.classification = none ∨ r.classification = some none) :
    (summarize_file category (rs ++ extra)).accuracy
      ≤ (summarize_file category rs).accuracy := by
  have hzero : extra.countP (correctB category) = 0 := by
    rw [List.countP_eq_zero]
    intro r hr
    rcases h r hr with he | hc | hc
    · simp [correctB, he]
    · simp [correctB, hc]
    · simp [correctB, hc]
  have hcc : correctCount category (rs ++ extra) = correctCount category rs := by
    rw [correctCount_eq, correctCount_eq, List.countP_append, hzero]
    omega
  show (if 0 < (rs ++ extra).length
      then (correctCount category (rs ++ extra) : ℚ) / ((rs ++ extra).length : ℚ) * 100
      else 0)
    ≤ (if 0 < rs.length then (correctCount category rs : ℚ) / (rs.length : ℚ) * 100
      else 0)
  rw [hcc]
  rcases Nat.eq_zero_or_pos rs.length with h0 | h0
  · have hrs : rs = [] := List.eq_nil_of_length_eq_zero h0
    subst hrs
    have hc0 : correctCount category [] = 0 := rfl
    rw [hc0]
    simp
  · have hlen : 0 < (rs ++ extra).length := by
      rw [List.length_append]
      omega
    rw [if_pos h0, if_pos hlen]
    have hle : (rs.length : ℚ) ≤ ((rs ++ extra).length : ℚ) := by
      rw [List.length_append]
      exact_mod_cast Nat.le_add_right _ _
    have hpos : (0 : ℚ) < (rs.length : ℚ) := by exact_mod_cast h0
    gcongr

theorem C8_accuracy_monotone_witness :
    (summarize_file "safe"
        ([⟨false, some (some "Safe"), some 1⟩] ++ [⟨true, none, none⟩])).accuracy
      ≤ (summarize_file "safe" [⟨false, some (some "Safe"), some 1⟩]).accuracy := by
  exact C8_accuracy_monotone "safe" [⟨false, some (some "Safe"), some 1⟩]
    [⟨true, none, none⟩] (by decide)

/-- Claim C3, amended: a record with no error field and a non-null classification
increments the correctness numerator exactly when it also carries an
`inference_time` key and the category rule matches its lower-cased
classification (the code requires both keys before scoring); it contributes
its time to the latency input set exactly when the `inference_time` key is
present. -/
theorem C3_numerator_needs_time (category : String) (rs : List Record)
    (c : String) (it : Option ℚ) :
    correctCount category (rs ++ [⟨false, some (some c), it⟩])
      = correctCount category rs
          + (if it.isSome && ruleB category c then 1 else 0)
    ∧ inferenceTimes category (rs ++ [⟨false, some (some c), it⟩])
      = inferenceTimes category rs ++ it.toList := by
  constructor
  · rw [correctCount_eq, correctCount_eq, List.countP_append]
    have hr : correctB category ⟨false, some (some c), it⟩
        = (it.isSome && ruleB category c) := by
      cases it <;> simp [correctB, Bool.and_comm]
    simp [List.countP_cons, hr]
  · rw [inferenceTimes_eq, inferenceTimes_eq, List.flatMap_append]
    cases it <;> simp [timesOf]

/-- Counterexample to claim C3 as stated: for category "safe", a record whose classification
matches the rule ("Safe" lower-cases to "safe") but which lacks an
`inference_time` key is not counted toward the numerator, contrary to the
claim's "regardless of whether inference_time is present"; the same record
with a time is counted. -/
theorem C3_counterexample_missing_time :
    ruleB "safe" "Safe" = true
    ∧ correctCount "safe" [⟨false, some (some "Safe"), none⟩] = 0
    ∧ correctCount "safe" [⟨false, some (some "Safe"), some 1⟩] = 1 := by
  exact ⟨by decide, by decide, by decide⟩

/-- Claim C9, amended: the code derives the model name by replacing every
occurrence of the substrings `test_<category>_` and `.log` (not only the
prefix and suffix occurrences) and then every underscore with a colon; when
those substrings occur only as the prefix and the suffix — in particular
for `test_safe_gemma2_27b.log` — this coincides with the claim's
prefix/suffix removal and yields the underscore-to-colon rewrite of the
stem. -/
theorem C9_model_name_derivation (category : String) (stem : List Char)
    (h1 : noOcc (prefixPat category) (stem ++ dotLog) = true)
    (h2 : noEarly dotLog stem = true) :
    modelName category (String.mk (prefixPat category ++ (stem ++ dotLog)))
      = String.mk (stem.map colonizeChar) := by
  unfold modelName
  have hd : (String.mk (prefixPat category ++ (stem ++ dotLog))).data
      = prefixPat category ++ (stem ++ dotLog) := rfl
  rw [hd]
  rw [pyReplace_atFront _ _ _ (prefixPat_ne_nil category)]
  rw [pyReplace_noOcc _ _ _ h1]
  rw [List.nil_append]
  rw [pyReplace_final dotLog (by decide) stem h2]
  rw [pyReplace_single]
  rfl

theorem C9_model_name_derivation_witness :
    modelName "safe" "test_safe_gemma2_27b.log" = "gemma2:27b" := by
  have h := C9_model_name_derivation "safe" "gemma2_27b".data (by decide) (by decide)
  have e1 : ("test_safe_gemma2_27b.log" : String)
      = String.mk (prefixPat "safe" ++ ("gemma2_27b".data ++ dotLog)) := by decide
  have e2 : ("gemma2:27b" : String)
      = String.mk ("gemma2_27b".data.map colonizeChar) := by decide
  rw [e1, e2]
  exact h

/-- Counterexample to claim C9 as stated: the file name `test_safe_test_safe_a.log` matches the
glob for category "safe", but the code's replace-all derivation yields "a"
while the claim's remove-prefix/remove-suffix/colonize derivation yields
"test:safe:a". -/
theorem C9_counterexample_replace_all :
    modelName "safe" "test_safe_test_safe_a.log"
        ≠ specModelName "safe" "test_safe_test_safe_a.log"
    ∧ globMatch "safe" "test_safe_test_safe_a.log" = true
    ∧ modelName "safe" "test_safe_test_safe_a.log" = "a"
    ∧ specModelName "safe" "test_safe_test_safe_a.log" = "test:safe:a" := by
  exact ⟨by decide, by decide, by decide, by decide⟩

/-- Claim C10: the summary dict keeps exactly one entry per derived model name
(its key list has no duplicates), and the entry stored for a name is the
summary of the *last* file in processing order that matches the glob and
derives that name — a later file silently overwrites an earlier one, with
no merging of their records. -/
theorem C10_duplicate_names_overwrite (category : String)
    (files : List (String × List String)) (m : String) :
    dictLookup m (summarize_results category files)
      = ((files.filter
            (fun f => globMatch category f.1 && (modelName category f.1 == m))).getLast?).map
          (fun f => fileSummary category f.1 f.2)
    ∧ ((summarize_results category files).map Prod.fst).Nodup := by
  refine ⟨?_, nodup_keys_summarize category files⟩
  rw [lookup_summarize, lastMatch_eq_getLast]

/-- Claim C1 names a code bug: with a model present in the safe table only, the report
builder does not render an "N/A" row — the `.get` default string "N/A"
reaches the `.2f` format spec of the row f-string, which raises
`ValueError` and aborts the run. -/
theorem C1_missing_model_aborts :
    generate_markdown_table [("m", ⟨100, some 1, 1⟩)] []
      = Except.error "Unknown format code f for object of type str" := rfl

/-- Claim C2, amended: for a model present in both summary tables, the combined
average inference time cell is the arithmetic mean of the two categories'
values when both are numeric (non-nan); when either is the nan sentinel the
cell is the nan float (rendered "nan"), not the "N/A" marker — "N/A"
appears only when the model is missing from a table. -/
theorem C2_combined_average (safe mal : List (String × ModelSummary))
    (m : String) (sa sb : ModelSummary)
    (hs : dictLookup m safe = some sa) (hm : dictLookup m mal = some sb) :
    avgTimeEntry (dictLookup m safe) (dictLookup m mal)
      = PyVal.flt (match sa.avg_inference_time, sb.avg_inference_time with
          | some a, some b => some ((a + b) / 2)
          | _, _ => none) := by
  rw [hs, hm]
  rcases sa with ⟨acca, ta, tota⟩
  rcases sb with ⟨accb, tb, totb⟩
  rcases ta with _ | a <;> rcases tb with _ | b <;>
      simp [avgTimeEntry, timeVal, floatsOf, pyFloatMean]

theorem C2_combined_average_witness :
    avgTimeEntry (dictLookup "m" [("m", ⟨100, some 1, 1⟩)])
        (dictLookup "m" [("m", ⟨50, some 2, 1⟩)])
      = PyVal.flt (some ((1 + 2) / 2)) := by
  exact C2_combined_average [("m", ⟨100, some 1, 1⟩)] [("m", ⟨50, some 2, 1⟩)]
    "m" ⟨100, some 1, 1⟩ ⟨50, some 2, 1⟩ rfl rfl

/-- Counterexample to claim C2 as stated: model "m" is present in both tables, the safe table
carries the nan sentinel (no latency samples) and the malicious table the
value 2; the claim says the combined cell renders "N/A", but the code
computes the mean of the two floats, which is nan, and renders "nan". -/
theorem C2_counterexample_nan_mean :
    avgTimeEntry (some ⟨0, none, 0⟩) (some ⟨100, some 2, 1⟩) = PyVal.flt none
    ∧ PyVal.flt none ≠ PyVal.str "N/A"
    ∧ fmtF 23 (PyVal.flt none) = Except.ok (padRight 23 "nan") := by
  exact ⟨by decide, by decide, rfl⟩

/-- Counterexample to claim C6 as stated: under category "malicious", the
record with classification "Spam" and no `inference_time` key is scorable in
the spec's sense (no error field, non-null classification) and its
lower-cased classification differs from "safe", so the claim counts it
toward the numerator and predicts accuracy 100; the code skips it — the
numerator stays 0 and the accuracy is 0. -/
theorem C6_counterexample_spec_scorable :
    pyLower "Spam" ≠ "safe"
    ∧ correctCount "malicious" [⟨false, some (some "Spam"), none⟩] = 0
    ∧ (summarize_file "malicious" [⟨false, some (some "Spam"), none⟩]).accuracy = 0
    ∧ (summarize_file "malicious" [⟨false, some (some "Spam"), none⟩]).total = 1 := by
  have h0 : correctCount "malicious" [⟨false, some (some "Spam"), none⟩] = 0 := by
    decide
  refine ⟨by decide, h0, ?_, rfl⟩
  simp [summarize_file, h0]
